import Mathlib

/-!
Shallow embedding of src/umini/data/tree/cartesian/implicit.py, the implicit
treap at the core of the python-mini-utils repository.

Modelling conventions, chosen to stay faithful to the runtime behaviour of the
Python source:

  - A child slot in the source has type Optional[_TreapVertex]; we bake the
    None case into the vertex type as the constructor TreapVertex.pynone, so a
    value of type TreapVertex is either Python None or a vertex object.
  - Python exceptions are modelled with Except String; the string records the
    exception that the interpreter would raise (quotes dropped).  A method
    call on None (for example l.push() inside merge when l is None) is an
    AttributeError raised at the call site; we fold that into the callee, so
    for example push TreapVertex.pynone kwargs is the error that None.push
    would raise.
  - The element type is specialised to Int.  Python truthiness of an Int is
    x not equal to 0; truthiness of None is False; truthiness of a vertex is
    its dunder bool (lines 221 to 222 of the source).
  - random.randint priorities and the per-call registries are explicit data:
    the registries live on each vertex exactly as in the source, where
    dunder init populates per-instance dicts.
  - The source mutates vertices in place.  Mutation along tree-shaped
    ownership is modelled by rebuilding; where the source mutates an object
    that is not part of the returned value (the receiver self in merge, whose
    update result is dropped), we run the call for its error effect and
    discard the value, which is observationally faithful for every property
    proved here (no proof depends on post-exception state or on aliasing).
-/

namespace Umini

/-! String constants for dictionary keys and for the exceptions the
interpreter raises on the traced paths. -/

def valueKey : String := "value"

def recursionErr : String := "RecursionError: maximum recursion depth exceeded"

def pushNoneErr : String := "AttributeError: NoneType object has no attribute push"

def splitNoneErr : String := "AttributeError: NoneType object has no attribute split"

def updateNoneErr : String := "AttributeError: NoneType object has no attribute update"

def lenNoneErr : String := "TypeError: object of type NoneType has no len()"

def valueNoneCallErr : String := "TypeError: NoneType object is not callable"

def valueArityErr : String := "TypeError: value_func takes 2 positional arguments but 1 was given"

def tcoNotCallableErr : String := "TypeError: TypeVar object is not callable"

def getattrNoneErr : String := "AttributeError: NoneType object has no attribute getattr"

def notClassAttrSuffix : String := " is not a class attribute"

def issubclassTypeVarErr : String :=
  "TypeError: issubclass() arg 2 must be a class, a tuple of classes, or a union"

def missingAttrPref : String := "AttributeError: "

/-- An entry of self.__lazy_calls: the on_range wrapper closure that the
decorator body defines at source lines 126 to 133, determined by the
registration name, the decorated function func and reverse_func.  push
invokes whatever the dict holds; the assignment that would store such an
entry (line 134) is unreachable in the program because the issubclass
check on line 121 always raises first (see computable below), but the
wrapper body itself is the code's lazy mechanism and is modelled from the
source. -/
structure LazyEntry where
  field : String
  func : Int → Int → Int
  rev : Int → Int → Int

/-- An entry of self.__func_calls.  The slot stored under the key value by
dunder init (line 46) holds value_func raw, possibly None; calling it with
the single argument self always raises (None is not callable, and a
two-parameter value_func is called with one argument).  The agg form is
the aggregate wrapper closure of source lines 136 to 145, determined by
the registration name and func; update invokes whatever the dict holds
(the assignment at line 146 is unreachable, like the lazy one, but the
wrapper body is modelled from the source). -/
inductive FuncEntry where
  | raw (f : Option (Int → Int → Int))
  | agg (field : String) (func : Int → Int → Int)

/-- A _TreapVertex object, or Python None standing in a child or root slot.
Fields follow dunder init (source lines 22 to 48): the stored value (from the
Vertex base class), _priority, _size, _left, _right, the named computed
field attributes, __lazy_calls and __func_calls.
The attribute store for computed fields is modelled from the spec: the
Vertex base class (src/umini/data/tree/base/vertex.py, not under src/)
carries the value and named-attribute access to the registered per-subtree
computed fields (spec section 3: fields is a mapping from registered field
name to its current computed value). -/
inductive TreapVertex where
  | pynone : TreapVertex
  | node (value : Option Int) (priority : Int) (size : Nat)
      (left right : TreapVertex)
      (fields : List (String × Int))
      (lazyCalls : List (String × LazyEntry))
      (funcCalls : List (String × FuncEntry)) : TreapVertex

/-! Dictionary helpers: Python dict lookup and item assignment (insertion
order preserving, assignment to an existing key replaces in place). -/

def lookupStr {β : Type} (key : String) : List (String × β) → Option β
  | [] => none
  | (k, v) :: rest => if k = key then some v else lookupStr key rest

def dictSet {β : Type} (key : String) (val : β) : List (String × β) → List (String × β)
  | [] => [(key, val)]
  | (k, v) :: rest => if k = key then (key, val) :: rest else (k, v) :: dictSet key val rest

/-- Python key membership, field in some dict, over the list of keys. -/
def memberStr (key : String) : List String → Bool
  | [] => false
  | k :: rest => if k = key then true else memberStr key rest

/-- Modelled from the spec: attribute read of a registered computed field
through the Vertex base class.  A missing field attribute raises
AttributeError. -/
def getField (flds : List (String × Int)) (field : String) : Except String Int :=
  match lookupStr field flds with
  | some x => Except.ok x
  | none => Except.error (missingAttrPref ++ field)

/-! Accessors (attribute reads on a vertex object; the pynone defaults are
never observed, every use site either guards on truthiness first or models
the AttributeError explicitly). -/

def leftOf : TreapVertex → TreapVertex
  | .pynone => .pynone
  | .node _ _ _ l _ _ _ _ => l

def rightOf : TreapVertex → TreapVertex
  | .pynone => .pynone
  | .node _ _ _ _ r _ _ _ => r

def prioOf : TreapVertex → Int
  | .pynone => 0
  | .node _ p _ _ _ _ _ _ => p

def sizeV : TreapVertex → Nat
  | .pynone => 0
  | .node _ _ s _ _ _ _ _ => s

def valueOf : TreapVertex → Option Int
  | .pynone => none
  | .node v _ _ _ _ _ _ _ => v

def fieldsOf : TreapVertex → List (String × Int)
  | .pynone => []
  | .node _ _ _ _ _ f _ _ => f

def lazyCallsOf : TreapVertex → List (String × LazyEntry)
  | .pynone => []
  | .node _ _ _ _ _ _ lz _ => lz

def funcCallsOf : TreapVertex → List (String × FuncEntry)
  | .pynone => []
  | .node _ _ _ _ _ _ _ fc => fc

/-- Python truthiness: bool(None) is False; dunder bool of _TreapVertex
(source lines 221 to 222) is self._size > 0 and self.value is not None. -/
def pyBool : TreapVertex → Bool
  | .pynone => false
  | .node value _ size _ _ _ _ _ => decide (0 < size) && value.isSome

/-- len() applied to a child or root slot: len(None) raises TypeError;
dunder len of _TreapVertex (source lines 216 to 219) returns _size when the
vertex is truthy and 0 otherwise. -/
def pyLen : TreapVertex → Except String Nat
  | .pynone => Except.error lenNoneErr
  | .node value _ size _ _ _ _ _ =>
      Except.ok (if decide (0 < size) && value.isSome then size else 0)

/-- The Python expression l or r. -/
def pyOr (l r : TreapVertex) : TreapVertex :=
  if pyBool l then l else r

def setLeft : TreapVertex → TreapVertex → TreapVertex
  | .pynone, _ => .pynone
  | .node value prio size _ r flds lz fc, newLeft => .node value prio size newLeft r flds lz fc

def setRight : TreapVertex → TreapVertex → TreapVertex
  | .pynone, _ => .pynone
  | .node value prio size l _ flds lz fc, newRight => .node value prio size l newRight flds lz fc

/-- dunder init (source lines 22 to 48): a fresh vertex has the given value,
a drawn priority (random.randint modelled as a parameter), size 1, None
children, no computed field attributes, empty __lazy_calls, and __func_calls
holding the raw value_func (None by default) under the key value.  The
stored args and kwargs attributes are unused by every operation modelled
here and are omitted. -/
def TreapVertexInit (value : Option Int) (valueFunc : Option (Int → Int → Int))
    (priority : Int) : TreapVertex :=
  .node value priority 1 .pynone .pynone [] [] [(valueKey, FuncEntry.raw valueFunc)]

/-- The body of the on_range wrapper applied to one child slot (source lines
129 to 132): if the child is truthy, its stored field attribute is
overwritten with func of its current attribute and the pushed value;
otherwise (None or falsy vertex) the slot is left alone. -/
def lazyChild (e : LazyEntry) (c : TreapVertex) (pushValue : Int) : Except String TreapVertex :=
  if pyBool c then
    match c with
    | .node cv cp cs cl cr cf clz cfc =>
      match getField cf e.field with
      | .error err => .error err
      | .ok cur => Except.ok (.node cv cp cs cl cr (dictSet e.field (e.func cur pushValue) cf) clz cfc)
    | .pynone => Except.ok c
  else Except.ok c

/-- The on_range wrapper (source lines 126 to 133), called with the
receiving vertex and the pushed value: if self is truthy its own field
attribute becomes reverse_func of the current attribute and the pushed
value, then each truthy child slot is rewritten through lazyChild.  On a
None receiver the self._left read raises AttributeError (unreachable from
push, which guards on truthiness). -/
def runLazy (e : LazyEntry) (self : TreapVertex) (pushValue : Int) : Except String TreapVertex :=
  match self with
  | .pynone => Except.error getattrNoneErr
  | .node value prio size l r flds lz fc =>
    match (if decide (0 < size) && value.isSome then
             match getField flds e.field with
             | .error err => .error err
             | .ok cur => Except.ok (dictSet e.field (e.rev cur pushValue) flds)
           else Except.ok flds) with
    | .error err => .error err
    | .ok flds2 =>
      match lazyChild e l pushValue with
      | .error err => .error err
      | .ok l2 =>
        match lazyChild e r pushValue with
        | .error err => .error err
        | .ok r2 => Except.ok (.node value prio size l2 r2 flds2 lz fc)

/-- The loop of push (source lines 158 to 160): for each keyword pair, when
__lazy_calls holds a (necessarily truthy) wrapper under the key, call it. -/
def pushLoop (self : TreapVertex) : List (String × Int) → Except String TreapVertex
  | [] => Except.ok self
  | (attr, value) :: rest =>
    match lookupStr attr (lazyCallsOf self) with
    | some e =>
      match runLazy e self value with
      | .error err => .error err
      | .ok self2 => pushLoop self2 rest
    | none => pushLoop self rest

/-- _TreapVertex.push (source lines 150 to 160).  Called on None the
attribute lookup itself raises AttributeError (this is the call-site
behaviour of l.push inside merge when l is None). -/
def push (self : TreapVertex) (kwargs : List (String × Int)) : Except String TreapVertex :=
  match self with
  | .pynone => Except.error pushNoneErr
  | .node _ _ _ _ _ _ _ _ => if pyBool self then pushLoop self kwargs else Except.ok self

/-- The expression self._left.getattr(field) or T_co() of the aggregate
wrapper (lines 141 to 143): reading the attribute on a None child raises
AttributeError; when the read value is falsy (the Int 0) the or-branch
evaluates T_co(), and calling a TypeVar raises TypeError. -/
def childAttrOrTco (c : TreapVertex) (field : String) : Except String Int :=
  match c with
  | .pynone => Except.error getattrNoneErr
  | .node _ _ _ _ _ cf _ _ =>
    match getField cf field with
    | .error err => .error err
    | .ok x => if x = 0 then Except.error tcoNotCallableErr else Except.ok x

/-- Running one __func_calls entry with the single argument self, as update
does.  The raw value_func slot always raises: None is not callable, and a
two-parameter function is missing an argument.  An aggregate wrapper
(source lines 136 to 145) recomputes the field from the two child
attributes when self is truthy and is the identity otherwise. -/
def runFuncEntry (e : FuncEntry) (self : TreapVertex) : Except String TreapVertex :=
  match e with
  | .raw none => Except.error valueNoneCallErr
  | .raw (some _) => Except.error valueArityErr
  | .agg field f =>
    if pyBool self then
      match self with
      | .node value prio size l r flds lz fc =>
        match childAttrOrTco l field with
        | .error err => .error err
        | .ok a =>
          match childAttrOrTco r field with
          | .error err => .error err
          | .ok b => Except.ok (.node value prio size l r (dictSet field (f a b) flds) lz fc)
      | .pynone => Except.ok self
    else Except.ok self

/-- Truthiness of a __func_calls entry, as tested by the guard
if self.__func_calls.get(attr, None) on line 172: the stored None value_func
is falsy, every function object is truthy. -/
def entryTruthy : FuncEntry → Bool
  | .raw none => false
  | .raw (some _) => true
  | .agg _ _ => true

/-- The named loop of update (source lines 171 to 173): for each name in
args, when __func_calls holds a truthy entry under it, call it. -/
def updateArgsLoop (self : TreapVertex) : List String → Except String TreapVertex
  | [] => Except.ok self
  | attr :: rest =>
    match lookupStr attr (funcCallsOf self) with
    | some e =>
      if entryTruthy e then
        match runFuncEntry e self with
        | .error err => .error err
        | .ok self2 => updateArgsLoop self2 rest
      else updateArgsLoop self rest
    | none => updateArgsLoop self rest

/-- The else block of the for/else in update (source lines 174 to 176): run
every stored entry, with no truthiness guard. -/
def updateAllLoop (self : TreapVertex) : List (String × FuncEntry) → Except String TreapVertex
  | [] => Except.ok self
  | (_, e) :: rest =>
    match runFuncEntry e self with
    | .error err => .error err
    | .ok self2 => updateAllLoop self2 rest

/-- _TreapVertex.update (source lines 162 to 176).  On a truthy vertex it
recomputes _size as len(_left) + len(_right) + 1 (len of a None child
raises TypeError), runs the named loop over args, and then runs the else
block of the for/else.  The for loop contains no break, so the else block
runs every time the loop finishes, whether or not names were passed. -/
def update (self : TreapVertex) (args : List String) : Except String TreapVertex :=
  match self with
  | .pynone => Except.error updateNoneErr
  | .node value prio size l r flds lz fc =>
    if pyBool (.node value prio size l r flds lz fc) then
      match pyLen l with
      | .error e => .error e
      | .ok ll =>
        match pyLen r with
        | .error e => .error e
        | .ok rl =>
          match updateArgsLoop (.node value prio (ll + rl + 1) l r flds lz fc) args with
          | .error e => .error e
          | .ok v2 => updateAllLoop v2 (funcCallsOf v2)
    else Except.ok (.node value prio size l r flds lz fc)

/-- _TreapVertex.split (source lines 178 to 196), with explicit recursion
fuel standing for the Python stack limit.  A falsy receiver returns
(self, self) before anything else; otherwise the receiver pushes kwargs,
computes cur_key = len(self.left) + add (TypeError when the left slot is
None), and branches: when cur_key <= key it recurses into the LEFT child
with the same key and offset, keeps only the left component of the
recursion (line 191 overwrites the right component with self), and returns
(recursion left, self); otherwise it recurses into the RIGHT child at
add + len(self.left) + 1, keeps only the right component (line 195
overwrites the left component with self) and returns (self, recursion
right).  No child slot is ever reassigned.  The recursive calls forward
only kwargs, not args (lines 190 and 193), and self.update(*args) runs on
self before returning it. -/
def split : Nat → TreapVertex → Int → Int → List String → List (String × Int) →
    Except String (TreapVertex × TreapVertex)
  | 0, _, _, _, _, _ => Except.error recursionErr
  | fuel + 1, self, key, add, args, kwargs =>
    match self with
    | .pynone => Except.error splitNoneErr
    | .node _ _ _ _ _ _ _ _ =>
      if !pyBool self then Except.ok (self, self)
      else
        match push self kwargs with
        | .error e => .error e
        | .ok self2 =>
          match pyLen (leftOf self2) with
          | .error e => .error e
          | .ok lenL =>
            if (lenL : Int) + add ≤ key then
              match split fuel (leftOf self2) key add [] kwargs with
              | .error e => .error e
              | .ok (lres, _rres) =>
                match update self2 args with
                | .error e => .error e
                | .ok self3 => Except.ok (lres, self3)
            else
              match split fuel (rightOf self2) key (add + (lenL : Int) + 1) [] kwargs with
              | .error e => .error e
              | .ok (_lres, rres) =>
                match update self2 args with
                | .error e => .error e
                | .ok self3 => Except.ok (self3, rres)

/-- _TreapVertex.merge (source lines 198 to 214), with explicit recursion
fuel.  Both arguments are pushed before the truthiness test (l.push on a
None argument raises AttributeError).  When either pushed argument is
falsy the result is l or r.  When the left priority is strictly larger,
l.right is replaced by the recursive merge and l is returned with no update
call; otherwise r.left is replaced by the recursive merge, self.update(*args)
runs on the method receiver (not on r; its effect on the receiver is
discarded here, only its exception matters), and r is returned. -/
def merge : Nat → TreapVertex → TreapVertex → TreapVertex → List String →
    List (String × Int) → Except String TreapVertex
  | 0, _, _, _, _, _ => Except.error recursionErr
  | fuel + 1, self, l, r, args, kwargs =>
    match push l kwargs with
    | .error e => .error e
    | .ok l2 =>
      match push r kwargs with
      | .error e => .error e
      | .ok r2 =>
        if !pyBool l2 || !pyBool r2 then Except.ok (pyOr l2 r2)
        else if prioOf l2 > prioOf r2 then
          match merge fuel self (rightOf l2) r2 args kwargs with
          | .error e => .error e
          | .ok m => Except.ok (setRight l2 m)
        else
          match merge fuel self l2 (leftOf r2) args kwargs with
          | .error e => .error e
          | .ok m =>
            match update self args with
            | .error e => .error e
            | .ok _ => Except.ok (setLeft r2 m)

/-- ImplicitTreap dunder len (source lines 300 to 301): return
len(self._tree), where _tree is Optional and defaults to None. -/
def ImplicitTreapLen (tree : TreapVertex) : Except String Nat :=
  pyLen tree

/-- _TreapVertex.computable (source lines 93 to 148), at the moment the
decorator is applied to func.  The decorator first tests membership of
field in cls.__annotations__ (line 119) and raises ValueError for an
unknown name; annotations is the list of declared attribute names.  For a
declared field, line 121 then evaluates
issubclass(cls.__annotations__[field], T_co).  T_co is a typing.TypeVar,
not a class, and issubclass with a TypeVar second argument unconditionally
raises TypeError, whatever the annotation value is (which is therefore not
modelled).  Consequently the not-computable ValueError (line 122), the
reverse_func check (lines 124 to 125) and the assignments that would store
a wrapper in the per-instance dicts (lines 134 and 146) are unreachable:
no registration of a declared field ever completes, and no registration at
all ever succeeds. -/
def computable (annotations : List String) (_self : TreapVertex) (field : String)
    (_reverseFunc : Option (Int → Int → Int)) (_onRange : Bool)
    (_func : Int → Int → Int) : Except String TreapVertex :=
  if !(memberStr field annotations) then Except.error (field ++ notClassAttrSuffix)
  else Except.error issubclassTypeVarErr

/-! Observation functions (not part of the source; used to state
properties). -/

/-- The in-order list of stored values of a structure (None slots and
absent stored values contribute nothing). -/
def inorder : TreapVertex → List Int
  | .pynone => []
  | .node value _ _ l r _ _ _ =>
    inorder l ++ (match value with | some x => [x] | none => []) ++ inorder r

/-- The child-side heap condition: a truthy child never has priority above
the bound; a None slot or falsy vertex is exempt. -/
def childOk (bound : Int) : TreapVertex → Bool
  | .pynone => true
  | .node value prio size _ _ _ _ _ =>
    !(decide (0 < size) && value.isSome) || decide (prio ≤ bound)

/-- Max-heap property on priorities over the whole structure: at every
node, each truthy child has priority at most the priority of the node. -/
def isHeap : TreapVertex → Bool
  | .pynone => true
  | .node _ prio _ l r _ _ _ => childOk prio l && childOk prio r && isHeap l && isHeap r

/-! A second, spec-side model of push, used only to compare the code
against the claim of lazy accumulation.  Modelled from the spec (sections
3, 4.1 and 4.4): a vertex carries a pending mapping (absent key means
nothing pending); push applies the apply function to the receiving node own
aggregate immediately and accumulates the pushed value into each present
child pending store through the compose rule, leaving the child own
aggregate untouched until the child is next visited. -/

inductive SpecVertex where
  | absent : SpecVertex
  | node (value : Option Int) (left right : SpecVertex)
      (fields pending : List (String × Int)) : SpecVertex

def svLeft : SpecVertex → SpecVertex
  | .absent => .absent
  | .node _ l _ _ _ => l

def svFields : SpecVertex → List (String × Int)
  | .absent => []
  | .node _ _ _ f _ => f

def svPending : SpecVertex → List (String × Int)
  | .absent => []
  | .node _ _ _ _ p => p

/-- Modelled from the spec: accumulate a pushed value into the pending
store of a child through the compose rule g (composition with anything
already pending, not overwrite). -/
def specAccum (g : Int → Int → Int) (field : String) (x : Int) : SpecVertex → SpecVertex
  | .absent => .absent
  | .node value l r flds pend =>
    .node value l r flds
      (dictSet field (match lookupStr field pend with | some p => g p x | none => x) pend)

/-- Modelled from the spec (section 4.1): push applies h to the node own
aggregate for the field and accumulates x into both children pending
stores through g; a no-op on an absent node. -/
def specPush (h g : Int → Int → Int) (field : String) (x : Int) : SpecVertex → SpecVertex
  | .absent => .absent
  | .node value l r flds pend =>
    .node value (specAccum g field x l) (specAccum g field x r)
      (dictSet field (match lookupStr field flds with | some cur => h cur x | none => x) flds)
      pend

end Umini

namespace Umini

def addFn : Int → Int → Int := fun a b => a + b

def mulFn : Int → Int → Int := fun a b => a * b

def fldS : String := "s"

def fldA : String := "a"

def fldB : String := "b"

-- fresh singleton as dunder init builds it
def t1 : TreapVertex := TreapVertexInit (some 1) none 42

-- falsy sentinel
def sentF : TreapVertex := .node none 7 0 .pynone .pynone [] [] []

-- registry-free two-node tree, absent slots as falsy sentinels
def t2b : TreapVertex := .node (some 2) 4 1 sentF sentF [] [] []

def t2 : TreapVertex := .node (some 1) 9 2 sentF t2b [] [] []

-- C5 inputs: singletons with a falsy-sentinel inner child so the recursion returns
def l5 : TreapVertex := .node (some 1) 9 1 .pynone sentF [] [] [(valueKey, FuncEntry.raw none)]

def r5 : TreapVertex := .node (some 2) 3 1 .pynone .pynone [] [] [(valueKey, FuncEntry.raw none)]

def l6 : TreapVertex := .node (some 1) 2 1 .pynone .pynone [] [] [(valueKey, FuncEntry.raw none)]

def r6 : TreapVertex := .node (some 2) 8 1 sentF .pynone [] [] [(valueKey, FuncEntry.raw none)]

-- C7 inputs: fresh-style singletons (None children)
def l7 : TreapVertex := .node (some 1) 9 1 .pynone .pynone [] [] [(valueKey, FuncEntry.raw none)]

def r7 : TreapVertex := .node (some 2) 3 1 .pynone .pynone [] [] [(valueKey, FuncEntry.raw none)]

-- C3 inputs: parent with lazy field s registered, one truthy left child
def lz0 : List (String × LazyEntry) := [(fldS, ⟨fldS, addFn, addFn⟩)]

def c0 : TreapVertex := .node (some 2) 4 1 .pynone .pynone [(fldS, 5)] [] [(valueKey, FuncEntry.raw none)]

def p0 : TreapVertex := .node (some 1) 9 3 c0 .pynone [(fldS, 10)] lz0 [(valueKey, FuncEntry.raw none)]

def sp0 : SpecVertex := .node (some 1) (.node (some 2) .absent .absent [(fldS, 5)] []) .absent [(fldS, 10)] []

-- C4 inputs: truthy vertex, truthy children, fields a and b registered
def fc4 : List (String × FuncEntry) :=
  [(valueKey, FuncEntry.raw none), (fldA, FuncEntry.agg fldA addFn), (fldB, FuncEntry.agg fldB addFn)]

def c4l : TreapVertex := .node (some 0) 4 1 .pynone .pynone [(fldA, 2), (fldB, 1)] [] [(valueKey, FuncEntry.raw none)]

def c4r : TreapVertex := .node (some 3) 2 1 .pynone .pynone [(fldA, 3), (fldB, 6)] [] [(valueKey, FuncEntry.raw none)]

def v4 : TreapVertex := .node (some 1) 9 3 c4l c4r [(fldA, 9), (fldB, 7)] [] fc4

-- C8 input
def v8 : TreapVertex := TreapVertexInit (some 1) none 7

-- evaluation results of the operations at the inputs above, written out

def m5res : TreapVertex := .node (some 1) 9 1 .pynone r5 [] [] [(valueKey, FuncEntry.raw none)]

def m6res : TreapVertex := .node (some 2) 8 1 l6 .pynone [] [] [(valueKey, FuncEntry.raw none)]

def c0cx : TreapVertex := .node (some 2) 4 1 .pynone .pynone [(fldS, 8)] [] [(valueKey, FuncEntry.raw none)]

def p0cx : TreapVertex := .node (some 1) 9 3 c0cx .pynone [(fldS, 13)] lz0 [(valueKey, FuncEntry.raw none)]

def sp0res : SpecVertex :=
  .node (some 1) (.node (some 2) .absent .absent [(fldS, 5)] [(fldS, 3)]) .absent [(fldS, 13)] []

def v4named : TreapVertex := .node (some 1) 9 3 c4l c4r [(fldA, 5), (fldB, 7)] [] fc4

end Umini

namespace Umini

/-! Helper lemmas. -/

lemma lookup_dictSet_self {β : Type} (key : String) (val : β) (d : List (String × β)) :
    lookupStr key (dictSet key val d) = some val := by
  induction d with
  | nil => simp [dictSet, lookupStr]
  | cons p rest ih =>
    obtain ⟨k, v⟩ := p
    by_cases hk : k = key
    · simp [dictSet, hk, lookupStr]
    · simp [dictSet, hk, lookupStr, ih]

lemma push_nil_node (value : Option Int) (prio : Int) (size : Nat) (l r : TreapVertex)
    (flds : List (String × Int)) (lz : List (String × LazyEntry))
    (fc : List (String × FuncEntry)) :
    push (.node value prio size l r flds lz fc) [] =
      Except.ok (.node value prio size l r flds lz fc) := by
  simp [push, pushLoop]

lemma childOk_of_le (v : TreapVertex) (b : Int) (h : prioOf v ≤ b) : childOk b v = true := by
  cases v with
  | pynone => rfl
  | node value prio size l r flds lz fc =>
    simp only [prioOf] at h
    simp [childOk, h]

lemma runFuncEntry_shape (e : FuncEntry) (value : Option Int) (prio : Int) (size : Nat)
    (l r : TreapVertex) (flds : List (String × Int)) (lz : List (String × LazyEntry))
    (fc : List (String × FuncEntry)) (v2 : TreapVertex)
    (h : runFuncEntry e (.node value prio size l r flds lz fc) = Except.ok v2) :
    ∃ flds2, v2 = .node value prio size l r flds2 lz fc := by
  cases e with
  | raw f => cases f <;> simp [runFuncEntry] at h
  | agg field f =>
    simp only [runFuncEntry] at h
    by_cases hb : pyBool (.node value prio size l r flds lz fc) = true
    · rw [if_pos hb] at h
      cases hl : childAttrOrTco l field with
      | error err => rw [hl] at h; simp at h
      | ok a =>
        rw [hl] at h
        cases hr : childAttrOrTco r field with
        | error err => rw [hr] at h; simp at h
        | ok b =>
          rw [hr] at h
          simp only [Except.ok.injEq] at h
          exact ⟨_, h.symm⟩
    · rw [if_neg hb] at h
      simp only [Except.ok.injEq] at h
      exact ⟨flds, h.symm⟩

lemma updateAllLoop_shape (entries : List (String × FuncEntry)) (value : Option Int)
    (prio : Int) (size : Nat) (l r : TreapVertex) (lz : List (String × LazyEntry))
    (fc : List (String × FuncEntry)) :
    ∀ (flds : List (String × Int)) (v2 : TreapVertex),
      updateAllLoop (.node value prio size l r flds lz fc) entries = Except.ok v2 →
      ∃ flds2, v2 = .node value prio size l r flds2 lz fc := by
  induction entries with
  | nil =>
    intro flds v2 h
    simp only [updateAllLoop, Except.ok.injEq] at h
    exact ⟨flds, h.symm⟩
  | cons p rest ih =>
    intro flds v2 h
    obtain ⟨k, e⟩ := p
    simp only [updateAllLoop] at h
    cases hre : runFuncEntry e (.node value prio size l r flds lz fc) with
    | error err => rw [hre] at h; simp at h
    | ok w =>
      rw [hre] at h
      obtain ⟨flds1, rfl⟩ := runFuncEntry_shape e value prio size l r flds lz fc w hre
      exact ih flds1 v2 h

lemma updateArgsLoop_shape (args : List String) (value : Option Int)
    (prio : Int) (size : Nat) (l r : TreapVertex) (lz : List (String × LazyEntry))
    (fc : List (String × FuncEntry)) :
    ∀ (flds : List (String × Int)) (v2 : TreapVertex),
      updateArgsLoop (.node value prio size l r flds lz fc) args = Except.ok v2 →
      ∃ flds2, v2 = .node value prio size l r flds2 lz fc := by
  induction args with
  | nil =>
    intro flds v2 h
    simp only [updateArgsLoop, Except.ok.injEq] at h
    exact ⟨flds, h.symm⟩
  | cons attr rest ih =>
    intro flds v2 h
    simp only [updateArgsLoop, funcCallsOf] at h
    split at h
    · rename_i e heq
      split at h
      · split at h
        · simp at h
        · rename_i w hre
          obtain ⟨flds1, rfl⟩ := runFuncEntry_shape e value prio size l r flds lz fc w hre
          exact ih flds1 v2 h
      · exact ih flds v2 h
    · exact ih flds v2 h

lemma update_shape (value : Option Int) (prio : Int) (size : Nat) (l r : TreapVertex)
    (flds : List (String × Int)) (lz : List (String × LazyEntry))
    (fc : List (String × FuncEntry)) (args : List String) (v2 : TreapVertex)
    (h : update (.node value prio size l r flds lz fc) args = Except.ok v2) :
    ∃ size2 flds2, v2 = .node value prio size2 l r flds2 lz fc := by
  simp only [update] at h
  split at h
  · split at h
    · simp at h
    · rename_i ll hll
      split at h
      · simp at h
      · rename_i rl hrl
        split at h
        · simp at h
        · rename_i w ha
          obtain ⟨flds1, rfl⟩ := updateArgsLoop_shape args value prio (ll + rl + 1) l r lz fc flds w ha
          simp only [funcCallsOf] at h
          obtain ⟨flds2, rfl⟩ := updateAllLoop_shape fc value prio (ll + rl + 1) l r lz fc flds1 v2 h
          exact ⟨ll + rl + 1, flds2, rfl⟩
  · simp only [Except.ok.injEq] at h
    exact ⟨size, flds, h.symm⟩

end Umini

namespace Umini

lemma split_heap (fuel : Nat) : ∀ (v : TreapVertex) (key add : Int) (a b : TreapVertex),
    isHeap v = true → split fuel v key add [] [] = Except.ok (a, b) →
    isHeap a = true ∧ isHeap b = true := by
  induction fuel with
  | zero => intro v key add a b _ h; simp [split] at h
  | succ fuel ih =>
    intro v key add a b hv h
    cases v with
    | pynone => simp [split] at h
    | node value prio size l r flds lz fc =>
      have hcomp := hv
      simp only [isHeap, Bool.and_eq_true] at hcomp
      obtain ⟨⟨⟨hcl, hcr⟩, hhl⟩, hhr⟩ := hcomp
      simp only [split, push_nil_node, leftOf, rightOf] at h
      split at h
      · simp only [Except.ok.injEq, Prod.mk.injEq] at h
        obtain ⟨rfl, rfl⟩ := h
        exact ⟨hv, hv⟩
      · split at h
        · simp at h
        · rename_i lenL hlen
          split at h
          · split at h
            · simp at h
            · rename_i lres rres hrec
              split at h
              · simp at h
              · rename_i self3 hu
                simp only [Except.ok.injEq, Prod.mk.injEq] at h
                obtain ⟨rfl, rfl⟩ := h
                refine ⟨(ih l key add lres rres hhl hrec).1, ?_⟩
                obtain ⟨size2, flds2, rfl⟩ := update_shape value prio size l r flds lz fc [] self3 hu
                simp only [isHeap, Bool.and_eq_true]
                exact ⟨⟨⟨hcl, hcr⟩, hhl⟩, hhr⟩
          · split at h
            · simp at h
            · rename_i lres rres hrec
              split at h
              · simp at h
              · rename_i self3 hu
                simp only [Except.ok.injEq, Prod.mk.injEq] at h
                obtain ⟨rfl, rfl⟩ := h
                refine ⟨?_, (ih r key (add + lenL + 1) lres rres hhr hrec).2⟩
                obtain ⟨size2, flds2, rfl⟩ := update_shape value prio size l r flds lz fc [] self3 hu
                simp only [isHeap, Bool.and_eq_true]
                exact ⟨⟨⟨hcl, hcr⟩, hhl⟩, hhr⟩

lemma merge_heap (fuel : Nat) : ∀ (s l r m : TreapVertex) (b : Int),
    isHeap l = true → isHeap r = true → childOk b l = true → childOk b r = true →
    merge fuel s l r [] [] = Except.ok m → isHeap m = true ∧ childOk b m = true := by
  induction fuel with
  | zero => intro s l r m b _ _ _ _ h; simp [merge] at h
  | succ fuel ih =>
    intro s l r m b hl hr cl cr h
    cases l with
    | pynone => simp [merge, push] at h
    | node lv lp lsz ll lr lf llz lfc =>
      cases r with
      | pynone =>
        simp only [merge, push_nil_node] at h
        simp only [push] at h
        simp at h
      | node rv rp rsz rcl rcr rf rlz rfc =>
        simp only [merge, push_nil_node, leftOf, rightOf, prioOf] at h
        split at h
        · simp only [Except.ok.injEq] at h
          subst h
          by_cases hbL : pyBool (.node lv lp lsz ll lr lf llz lfc) = true
          · simpa [pyOr, hbL] using ⟨hl, cl⟩
          · simp only [Bool.not_eq_true] at hbL
            simpa [pyOr, hbL] using ⟨hr, cr⟩
        · rename_i hcond
          simp only [Bool.or_eq_true, Bool.not_eq_true', not_or, Bool.not_eq_false] at hcond
          obtain ⟨hbL, hbR⟩ := hcond
          have hbL' : (decide (0 < lsz) && lv.isSome) = true := by simpa [pyBool] using hbL
          have hbR' : (decide (0 < rsz) && rv.isSome) = true := by simpa [pyBool] using hbR
          have hlc := hl
          simp only [isHeap, Bool.and_eq_true] at hlc
          obtain ⟨⟨⟨clL, clR⟩, hLl⟩, hLr⟩ := hlc
          have hrc := hr
          simp only [isHeap, Bool.and_eq_true] at hrc
          obtain ⟨⟨⟨crL, crR⟩, hRl⟩, hRr⟩ := hrc
          split at h
          · rename_i hp
            split at h
            · simp at h
            · rename_i m1 hm
              simp only [Except.ok.injEq] at h
              subst h
              have crp : childOk lp (.node rv rp rsz rcl rcr rf rlz rfc) = true := by
                simp only [childOk, hbR', Bool.not_true, Bool.false_or, decide_eq_true_eq]
                exact le_of_lt hp
              obtain ⟨him, hcm⟩ := ih s lr (.node rv rp rsz rcl rcr rf rlz rfc) m1 lp hLr hr clR crp hm
              constructor
              · simp only [setRight, isHeap, Bool.and_eq_true]
                exact ⟨⟨⟨clL, hcm⟩, hLl⟩, him⟩
              · simpa only [setRight, childOk] using cl
          · rename_i hp
            split at h
            · simp at h
            · rename_i m1 hm
              split at h
              · simp at h
              · simp only [Except.ok.injEq] at h
                subst h
                have clp : childOk rp (.node lv lp lsz ll lr lf llz lfc) = true := by
                  simp only [childOk, hbL', Bool.not_true, Bool.false_or, decide_eq_true_eq]
                  exact not_lt.mp hp
                obtain ⟨him, hcm⟩ := ih s (.node lv lp lsz ll lr lf llz lfc) rcl m1 rp hl hRl clp crL hm
                constructor
                · simp only [setLeft, isHeap, Bool.and_eq_true]
                  exact ⟨⟨⟨hcm, crR⟩, him⟩, hRr⟩
                · simpa only [setLeft, childOk] using cr

end Umini

namespace Umini

lemma getField_of_lookup (flds : List (String × Int)) (field : String) (x : Int)
    (h : lookupStr field flds = some x) : getField flds field = Except.ok x := by
  simp [getField, h]

lemma lazyChild_spec (e : LazyEntry) (c : TreapVertex) (x : Int) (c2 : TreapVertex)
    (h : lazyChild e c x = Except.ok c2) :
    (pyBool c = false → c2 = c) ∧
    (∀ c0, pyBool c = true → lookupStr e.field (fieldsOf c) = some c0 →
      fieldsOf c2 = dictSet e.field (e.func c0 x) (fieldsOf c)) := by
  constructor
  · intro hbc
    simp only [lazyChild, hbc] at h
    simp only [Bool.false_eq_true, if_false, Except.ok.injEq] at h
    exact h.symm
  · intro c0 hbc hlc
    cases c with
    | pynone => simp [pyBool] at hbc
    | node cv cp cs cl cr cf clz cfc =>
      simp only [fieldsOf] at hlc ⊢
      simp only [lazyChild, hbc, if_true] at h
      rw [getField_of_lookup cf e.field c0 hlc] at h
      simp only [Except.ok.injEq] at h
      subst h
      simp [fieldsOf]

/-! Theorems for the claims. -/

/-- C6: after every split and every merge, the max-heap property on
priorities holds in every returned tree (each truthy child has priority at
most its parent priority), provided the input trees satisfied it. -/
theorem c6_split_merge_preserve_heap (fuel : Nat) (t s l r : TreapVertex) (key add : Int)
    (ht : isHeap t = true) (hl : isHeap l = true) (hr : isHeap r = true) :
    (∀ a b, split fuel t key add [] [] = Except.ok (a, b) →
      isHeap a = true ∧ isHeap b = true) ∧
    (∀ m, merge fuel s l r [] [] = Except.ok m → isHeap m = true) := by
  refine ⟨fun a b h => split_heap fuel t key add a b ht h, fun m h => ?_⟩
  have hcl : childOk (max (prioOf l) (prioOf r)) l = true :=
    childOk_of_le l _ (le_max_left _ _)
  have hcr : childOk (max (prioOf l) (prioOf r)) r = true :=
    childOk_of_le r _ (le_max_right _ _)
  exact (merge_heap fuel s l r m _ hl hr hcl hcr h).1

/-- Witness for c6_split_merge_preserve_heap at concrete inputs on which
split and merge return normally. -/
theorem c6_witness : isHeap sentF = true ∧ isHeap l5 = true := by
  constructor
  · exact ((c6_split_merge_preserve_heap 10 sentF sentF sentF sentF 0 0 rfl rfl rfl).1
      sentF sentF rfl).1
  · exact (c6_split_merge_preserve_heap 10 sentF sentF l5 sentF 0 0 rfl rfl rfl).2 l5 rfl

/-- C10: a vertex is truthy exactly when its size is positive and its stored
value is not None, so a vertex whose stored value is None is treated as an
absent subtree by push, update, split and len, even when it has children. -/
theorem c10_value_none_is_absent (prio : Int) (size : Nat) (l r : TreapVertex)
    (flds : List (String × Int)) (lz : List (String × LazyEntry))
    (fc : List (String × FuncEntry)) (kwargs : List (String × Int)) (args : List String)
    (fuel : Nat) (key add : Int) :
    (∀ value : Option Int, pyBool (.node value prio size l r flds lz fc) =
      (decide (0 < size) && value.isSome)) ∧
    pyBool (.node none prio size l r flds lz fc) = false ∧
    push (.node none prio size l r flds lz fc) kwargs =
      Except.ok (.node none prio size l r flds lz fc) ∧
    update (.node none prio size l r flds lz fc) args =
      Except.ok (.node none prio size l r flds lz fc) ∧
    split (fuel + 1) (.node none prio size l r flds lz fc) key add args kwargs =
      Except.ok (.node none prio size l r flds lz fc, .node none prio size l r flds lz fc) ∧
    pyLen (.node none prio size l r flds lz fc) = Except.ok 0 := by
  have hb : pyBool (.node (none : Option Int) prio size l r flds lz fc) = false := by
    simp [pyBool]
  refine ⟨fun value => rfl, hb, ?_, ?_, ?_, ?_⟩
  · simp [push, hb]
  · simp [update, hb]
  · simp [split, hb]
  · simp [pyLen]

/-- C9: with a vertex root, ImplicitTreap length returns the size through
the vertex dunder len, but with an absent (None) root, the default for a
freshly constructed treap, the expression len(self._tree) is len(None) and
raises TypeError instead of returning 0. -/
theorem c9_len_none_raises :
    ImplicitTreapLen .pynone = Except.error lenNoneErr ∧
    ImplicitTreapLen t1 = Except.ok 1 := ⟨rfl, rfl⟩

/-- C1: merge of split does not reproduce the tree.  On a fresh
single-vertex tree (children None, exactly as dunder init builds vertices)
the pipeline merge(split(t, 0)) raises TypeError already inside split, when
it evaluates len of the None left child, so no sequence at all is
returned. -/
theorem c1_merge_split_crashes :
    (match split 10 t1 0 0 [] [] with
     | .ok (a, b) => merge 10 t1 a b [] []
     | .error e => Except.error e) = Except.error lenNoneErr := rfl

/-- C2: split does not follow the claimed recursion.  When pos is at most k
it recurses into the LEFT child at the same key and offset, discards the
recursion right result (overwritten with self) and reattaches nothing, so
splitting the two-element tree t2 (in-order values 1, 2; absent slots as
falsy sentinel vertices, no registered fields) at 0 returns the empty
sentinel together with the entire tree; and on a fresh vertex with None
children split instead raises TypeError at len(None). -/
theorem c2_split_wrong_recursion :
    split 10 t2 0 0 [] [] = Except.ok (sentF, t2) ∧
    inorder sentF = [] ∧ inorder t2 = [1, 2] ∧
    split 10 t1 0 0 [] [] = Except.error lenNoneErr := ⟨rfl, rfl, rfl, rfl⟩

/-- C5: merge does not call update on the tree it returns.  When l wins the
priority comparison the result l is returned with no update call at all,
and when r wins, update is invoked on the method receiver self rather than
on r.  In both concrete merges below the returned root keeps its stale
size 1 although its subtree now holds the two values 1 and 2; had update
run on the returned root, the size would have been recomputed to 2 (and the
raw value slot would in fact have raised). -/
theorem c5_merge_no_update :
    merge 10 sentF l5 r5 [] [] = Except.ok m5res ∧ sizeV m5res = 1 ∧ inorder m5res = [1, 2] ∧
    merge 10 sentF l6 r6 [] [] = Except.ok m6res ∧ sizeV m6res = 1 ∧ inorder m6res = [1, 2] :=
  ⟨rfl, rfl, rfl, rfl, rfl, rfl⟩

/-- C7 counterexample: merging two fresh single vertices (children None as
dunder init leaves them) reaches the recursive call merge(l.right, r) with
l.right = None, and the internal l.push() on that absent subtree raises
AttributeError instead of completing without error. -/
theorem c7_counterexample :
    merge 10 sentF l7 r7 [] [] = Except.error pushNoneErr := rfl

/-- C7 amended: push and update invoked on a falsy vertex object (size 0 or
stored value None) are silent no-ops that never raise; the claim fails only
for absent subtrees stored as None, where the attribute lookup of the
method itself raises inside the merge recursion. -/
theorem c7_falsy_vertex_noop (value : Option Int) (prio : Int) (size : Nat)
    (l r : TreapVertex) (flds : List (String × Int)) (lz : List (String × LazyEntry))
    (fc : List (String × FuncEntry)) (kwargs : List (String × Int)) (args : List String)
    (hb : pyBool (.node value prio size l r flds lz fc) = false) :
    push (.node value prio size l r flds lz fc) kwargs =
      Except.ok (.node value prio size l r flds lz fc) ∧
    update (.node value prio size l r flds lz fc) args =
      Except.ok (.node value prio size l r flds lz fc) := by
  constructor
  · simp [push, hb]
  · simp [update, hb]

/-- Witness for c7_falsy_vertex_noop at the concrete falsy sentinel. -/
theorem c7_witness :
    push sentF [(fldS, 3)] = Except.ok sentF ∧ update sentF [fldS] = Except.ok sentF :=
  c7_falsy_vertex_noop none 7 0 .pynone .pynone [] [] [] [(fldS, 3)] [fldS] rfl

end Umini

namespace Umini

/-- C3 counterexample: push writes through to the child immediately.
Pushing 3 onto the lazy field s of p0 changes the left child own stored
aggregate from 5 to 8 during the push itself, with the child never visited;
the spec-modelled specPush instead leaves the child aggregate at 5 and
accumulates 3 into the child pending store. -/
theorem c3_counterexample :
    push p0 [(fldS, 3)] = Except.ok p0cx ∧
    lookupStr fldS (fieldsOf (leftOf p0)) = some 5 ∧
    lookupStr fldS (fieldsOf (leftOf p0cx)) = some 8 ∧
    specPush addFn addFn fldS 3 sp0 = sp0res ∧
    lookupStr fldS (svFields (svLeft sp0res)) = some 5 ∧
    lookupStr fldS (svPending (svLeft sp0res)) = some 3 :=
  ⟨rfl, rfl, rfl, rfl, rfl, rfl⟩

/-- C3 amended: on a truthy vertex with a registered lazy range field, push
applies the registered reverse function to the node own aggregate and
applies the registered forward function directly and immediately to each
truthy child stored aggregate; nothing is accumulated in a pending store
(none exists), and None or falsy children are left untouched. -/
theorem c3_push_applies_immediately (value : Option Int) (prio : Int) (size : Nat)
    (l r : TreapVertex) (flds : List (String × Int)) (lz : List (String × LazyEntry))
    (fc : List (String × FuncEntry)) (attr : String) (e : LazyEntry) (x s0 : Int)
    (v2 : TreapVertex)
    (hb : pyBool (.node value prio size l r flds lz fc) = true)
    (hlk : lookupStr attr lz = some e)
    (hself : lookupStr e.field flds = some s0)
    (hok : push (.node value prio size l r flds lz fc) [(attr, x)] = Except.ok v2) :
    fieldsOf v2 = dictSet e.field (e.rev s0 x) flds ∧
    lookupStr e.field (fieldsOf v2) = some (e.rev s0 x) ∧
    (∀ c0, pyBool l = true → lookupStr e.field (fieldsOf l) = some c0 →
      fieldsOf (leftOf v2) = dictSet e.field (e.func c0 x) (fieldsOf l)) ∧
    (∀ c0, pyBool r = true → lookupStr e.field (fieldsOf r) = some c0 →
      fieldsOf (rightOf v2) = dictSet e.field (e.func c0 x) (fieldsOf r)) ∧
    (pyBool l = false → leftOf v2 = l) ∧
    (pyBool r = false → rightOf v2 = r) ∧
    valueOf v2 = value ∧ prioOf v2 = prio ∧ sizeV v2 = size := by
  simp only [push] at hok
  split at hok
  · simp only [pushLoop, lazyCallsOf] at hok
    split at hok
    · rename_i e1 heq
      rw [hlk] at heq
      cases heq
      split at hok
      · simp at hok
      · rename_i w hrl
        simp only [pushLoop, Except.ok.injEq] at hok
        subst hok
        have hb2 : (decide (0 < size) && Option.isSome value) = true := hb
        simp only [runLazy] at hrl
        rw [if_pos hb2] at hrl
        simp only [getField_of_lookup flds e.field s0 hself] at hrl
        split at hrl
        · simp at hrl
        · rename_i l2 hcl
          split at hrl
          · simp at hrl
          · rename_i r2 hcr
            simp only [Except.ok.injEq] at hrl
            subst hrl
            obtain ⟨hlf, hlt⟩ := lazyChild_spec e l x l2 hcl
            obtain ⟨hrf, hrt⟩ := lazyChild_spec e r x r2 hcr
            refine ⟨rfl, lookup_dictSet_self e.field (e.rev s0 x) flds, ?_, ?_, ?_, ?_, rfl, rfl, rfl⟩
            · intro c0 hbl hlc0
              simpa only [leftOf] using hlt c0 hbl hlc0
            · intro c0 hbr hrc0
              simpa only [rightOf] using hrt c0 hbr hrc0
            · intro hbl
              simpa only [leftOf] using hlf hbl
            · intro hbr
              simpa only [rightOf] using hrf hbr
    · rename_i heq
      rw [hlk] at heq
      exact Option.noConfusion heq
  · rename_i hfalse
    exact absurd hb hfalse

/-- Witness for c3_push_applies_immediately at the concrete input p0. -/
theorem c3_witness :
    lookupStr fldS (fieldsOf p0cx) = some 13 ∧
    fieldsOf (leftOf p0cx) = [(fldS, 8)] := by
  have h := c3_push_applies_immediately (some 1) 9 3 c0 .pynone [(fldS, 10)] lz0
    [(valueKey, FuncEntry.raw none)] fldS ⟨fldS, addFn, addFn⟩ 3 10 p0cx rfl rfl rfl rfl
  exact ⟨h.2.1, h.2.2.1 5 rfl rfl⟩

/-- C4 counterexample: with aggregate fields a and b registered and update
called with the explicit name a, the named loop recomputes a (9 becomes 5)
and then the for/else fallback still runs and raises TypeError on the raw
value slot, instead of update recomputing exactly the named field and
returning normally. -/
theorem c4_counterexample :
    updateArgsLoop (.node (some 1) 9 3 c4l c4r [(fldA, 9), (fldB, 7)] [] fc4) [fldA] =
      Except.ok v4named ∧
    update v4 [fldA] = Except.error valueNoneCallErr := ⟨rfl, rfl⟩

/-- C4 amended: on a truthy vertex, update recomputes size and runs the
named entries, and then in every case additionally runs the for/else
fallback over all registered entries (the loop has no break, so the else
block always runs); passing explicit names does not suppress the fallback,
whose first entry on any vertex built by dunder init is the raw stored
value_func slot, so the fallback raises TypeError. -/
theorem c4_update_fallback_always_runs (value : Option Int) (prio : Int) (size : Nat)
    (l r : TreapVertex) (flds : List (String × Int)) (lz : List (String × LazyEntry))
    (fc : List (String × FuncEntry)) (args : List String) (ll rl : Nat) (v1 : TreapVertex)
    (rest : List (String × FuncEntry))
    (hb : pyBool (.node value prio size l r flds lz fc) = true)
    (hll : pyLen l = Except.ok ll) (hrl : pyLen r = Except.ok rl)
    (hargs : updateArgsLoop (.node value prio (ll + rl + 1) l r flds lz fc) args =
      Except.ok v1)
    (hfc : funcCallsOf v1 = (valueKey, FuncEntry.raw none) :: rest) :
    update (.node value prio size l r flds lz fc) args = Except.error valueNoneCallErr := by
  simp only [update, hb, hll, hrl, hargs, hfc, updateAllLoop, runFuncEntry, if_true]

/-- Witness for c4_update_fallback_always_runs at the concrete vertex v4. -/
theorem c4_witness :
    pyBool v4 = true ∧ update v4 [fldA] = Except.error valueNoneCallErr := by
  refine ⟨rfl, ?_⟩
  exact c4_update_fallback_always_runs (some 1) 9 3 c4l c4r [(fldA, 9), (fldB, 7)] [] fc4
    [fldA] 1 1 v4named [(fldA, FuncEntry.agg fldA addFn), (fldB, FuncEntry.agg fldB addFn)]
    rfl rfl rfl rfl rfl

/-- C8: field registration is uniformly broken.  Registering a name that
is not a declared class attribute raises the ValueError of line 120, as
claimed; but for any declared field name, whatever the combination of
on_range and reverse_func, line 121 raises TypeError (issubclass with the
typing.TypeVar T_co as second argument) before the documented
not-computable and reverse_func checks or any dict assignment run, so no
registration ever succeeds and no duplicate entry can ever come into
existence.  The concrete conjuncts cover an unknown name (ValueError), a
declared aggregate field, a declared lazy field without a reverse function,
a declared lazy field with one (a valid registration, crashing all the
same), and the name value that dunder init had already stored in
__func_calls (the one realisable duplicate scenario). -/
theorem c8_registration_always_raises :
    (∀ (annotations : List String) (self : TreapVertex) (field : String)
        (rev : Option (Int → Int → Int)) (onRange : Bool) (func : Int → Int → Int),
      ∃ e, computable annotations self field rev onRange func = Except.error e) ∧
    computable [] v8 fldS none false addFn = Except.error (fldS ++ notClassAttrSuffix) ∧
    computable [fldS] v8 fldS none false addFn = Except.error issubclassTypeVarErr ∧
    computable [fldS] v8 fldS none true addFn = Except.error issubclassTypeVarErr ∧
    computable [fldS] v8 fldS (some addFn) true addFn = Except.error issubclassTypeVarErr ∧
    computable [valueKey] v8 valueKey none false addFn = Except.error issubclassTypeVarErr := by
  refine ⟨?_, rfl, rfl, rfl, rfl, rfl⟩
  intro annotations self field rev onRange func
  by_cases h : memberStr field annotations = true
  · exact ⟨issubclassTypeVarErr, by simp [computable, h]⟩
  · have h2 : memberStr field annotations = false := by simpa using h
    exact ⟨field ++ notClassAttrSuffix, by simp [computable, h2]⟩

end Umini
